import Mathlib

/-!
Verification development for the bun-http-proxy repository.

The definitions below are shallow embeddings of the functions in
`src/index.ts`, `src/serve.ts`, `src/certs/rootCA.ts` and
`src/certs/serverCert.ts` (plus the older `serve.ts` revision kept as
`src/unnamed/part_003`).  Strings are modelled as `List Char`, byte
buffers as `List Nat` (each entry `< 256`), and the fallible / stateful
parts of the runtime (WebCrypto, `Bun.serve`, the file system) as
explicit outcome flags and state passing.
-/

namespace BunProxy

/-- Characters of a string literal, used to write the embedded string
constants of the source. -/
def str (s : String) : List Char := s.data

/-! ### Base64 codec

Models the platform `btoa` / `atob` pair used by `toPEM`
(`src/certs/rootCA.ts`, `src/certs/serverCert.ts`) and `pemToDer`
(`src/serve.ts`).  The codec itself is a runtime builtin; it is embedded
here as the standard RFC 4648 base64 alphabet acting on byte lists. -/

/-- The 64-character base64 alphabet. -/
def b64Alphabet : List Char :=
  str "ABCDEFGHIJKLMNOPQRSTUVWXYZabcdefghijklmnopqrstuvwxyz0123456789+/"

/-- The base64 digit for a 6-bit value. -/
def encChar (v : Nat) : Char := b64Alphabet.getD v 'A'

/-- The 6-bit value of a base64 digit (its index in the alphabet). -/
def decChar (c : Char) : Nat := b64Alphabet.indexOf c

/-- Model of `btoa` on a byte list: groups of three bytes become four base64
digits, a final group of one or two bytes is padded with `=`. -/
def btoa : List Nat → List Char
  | [] => []
  | [b1] => [encChar (b1 / 4), encChar (b1 % 4 * 16), '=', '=']
  | [b1, b2] =>
      [encChar (b1 / 4), encChar (b1 % 4 * 16 + b2 / 16), encChar (b2 % 16 * 4), '=']
  | b1 :: b2 :: b3 :: rest =>
      encChar (b1 / 4) :: encChar (b1 % 4 * 16 + b2 / 16) ::
      encChar (b2 % 16 * 4 + b3 / 64) :: encChar (b3 % 64) :: btoa rest

/-- Model of `atob` on well-formed base64 text: four digits at a time, with `=`
padding marking a short final group. -/
def atob : List Char → List Nat
  | c1 :: c2 :: c3 :: c4 :: rest =>
      if c3 = '=' then
        [decChar c1 * 4 + decChar c2 / 16]
      else if c4 = '=' then
        [decChar c1 * 4 + decChar c2 / 16, decChar c2 % 16 * 16 + decChar c3 / 4]
      else
        (decChar c1 * 4 + decChar c2 / 16) :: (decChar c2 % 16 * 16 + decChar c3 / 4) ::
        (decChar c3 % 4 * 64 + decChar c4) :: atob rest
  | _ => []

/-- ASCII whitespace recognised by the `\s` regex class used in
`pemToDer` (`src/serve.ts` line 12). -/
def isSpaceJS (c : Char) : Bool :=
  [' ', '\t', '\n', '\r', '\x0b', '\x0c'].contains c

/-! ### PEM encoding (`toPEM` in `src/certs/rootCA.ts` lines 23-27 and
`src/certs/serverCert.ts` lines 30-34) -/

/-- JS `b64.replace(/(.{64})/g, "$1\n")`: a newline after every full run of
64 characters (the input contains no newline itself). -/
def chunk64 (s : List Char) : List Char :=
  if s.length ≤ 64 then
    (if s.length = 64 then s ++ ['\n'] else s)
  else
    s.take 64 ++ '\n' :: chunk64 (s.drop 64)
termination_by s.length
decreasing_by simp; omega

/-- The lines contributed by `chunk64 s` once a further newline follows
it in the PEM template: 64-character chunks, plus a trailing empty line
exactly when the final chunk is full. -/
def bodyLines (s : List Char) : List (List Char) :=
  if s.length ≤ 64 then
    (if s.length = 64 then [s, []] else [s])
  else
    s.take 64 :: bodyLines (s.drop 64)
termination_by s.length
decreasing_by simp; omega

/-- Split a character list at newlines, JS `"…".split("\n")` style:
`splitNl (str "a\n") = [str "a", []]`. -/
def splitNl : List Char → List (List Char)
  | [] => [[]]
  | '\n' :: rest => [] :: splitNl rest
  | c :: rest =>
      match splitNl rest with
      | l :: ls => (c :: l) :: ls
      | [] => [[c]]

/-- The `-----BEGIN <label>-----` line of a PEM block. -/
def beginLine (label : List Char) : List Char :=
  str "-----BEGIN " ++ label ++ str "-----"

/-- The `-----END <label>-----` line of a PEM block. -/
def endLine (label : List Char) : List Char :=
  str "-----END " ++ label ++ str "-----"

/-- Embedding of `toPEM(buffer, label)`: base64-encode, wrap at column 64, and
surround with the BEGIN/END labels, ending in a newline. -/
def toPEM (buffer : List Nat) (label : List Char) : List Char :=
  beginLine label ++ '\n' :: chunk64 (btoa buffer) ++ '\n' :: endLine label ++ ['\n']

/-! ### PEM decoding (`pemToDer` in `src/serve.ts` lines 7-21) -/

/-- Match the regex `intro[^-]+-----` at the start of `s` (with `intro`
one of `-----BEGIN ` / `-----END `), returning the matched length.  The
`[^-]+` group is greedy and cannot backtrack usefully (shortening it
places a non-dash where a dash is required), so the match is the maximal
dash-free run followed by five dashes. -/
def matchDashPat (intro : List Char) (s : List Char) : Option Nat :=
  if intro.isPrefixOf s then
    let rest := s.drop intro.length
    let run := rest.takeWhile (· ≠ '-')
    if run.length ≠ 0 ∧ (str "-----").isPrefixOf (rest.drop run.length) then
      some (intro.length + run.length + 5)
    else none
  else none

/-- JS `String.replace(regex, "")` without the `g` flag: delete the first
match found scanning left to right, or leave the string unchanged. -/
def removeFirstMatch (pat : List Char → Option Nat) : List Char → List Char
  | [] => []
  | c :: rest =>
      match pat (c :: rest) with
      | some n => (c :: rest).drop n
      | none => c :: removeFirstMatch pat rest

/-- Embedding of `pemToDer`: strip the first `-----BEGIN [^-]+-----`, then the first
`-----END [^-]+-----`, delete all whitespace, and base64-decode what is
left into bytes. -/
def pemToDer (pem : List Char) : List Nat :=
  atob (((removeFirstMatch (matchDashPat (str "-----BEGIN ")) pem
          |> removeFirstMatch (matchDashPat (str "-----END "))).filter
            (fun c => !isSpaceJS c)))

/-- The chain PEM of `createServerForDomain` (`src/unnamed/part_003`
lines 40-46): leaf certificate PEM, a newline, then the root CA
certificate PEM. -/
def fullChainPEM (leafPEM rootPEM : List Char) : List Char :=
  leafPEM ++ '\n' :: rootPEM

/-! ### CONNECT frontend (`src/index.ts`)

The regex `/^CONNECT ([^:]+):(\d+) HTTP\/1\.[01]/` is anchored at the
start of the string.  `[^:]+` cannot match past a colon, and once it is
shortened by backtracking the following literal `:` faces a non-colon
character, so the host group is exactly the text up to the first colon;
the same argument pins `(\d+)` to the maximal digit run after it.  The
parser below implements that (deterministic) semantics. -/

/-- Parse the first data chunk against the CONNECT regex of
`src/index.ts` lines 48-50, returning the host and port captures. -/
def parseConnect (s : List Char) : Option (List Char × List Char) :=
  if (str "CONNECT ").isPrefixOf s then
    let r1 := s.drop 8
    let host := r1.takeWhile (· ≠ ':')
    if host.length = 0 then none
    else if host.length < r1.length then
      let r2 := r1.drop (host.length + 1)
      let port := r2.takeWhile (·.isDigit)
      if port.length = 0 then none
      else if (str " HTTP/1.").isPrefixOf (r2.drop port.length) then
        match r2.drop (port.length + 8) with
        | '0' :: _ => some (host, port)
        | '1' :: _ => some (host, port)
        | _ => none
      else none
    else none
  else none

/-- Observable actions taken by the proxy handlers on the two sockets. -/
inductive Effect
  | connectTo (host : List Char) (port : List Char)
  | writeClient (msg : List Char)
  | writeTarget (bytes : List Char)
  | endClient
  | endTarget
deriving DecidableEq, Repr

/-- The `HTTP/1.1 200 Connection Established` response line. -/
def resp200 : List Char := str "HTTP/1.1 200 Connection Established\r\n\r\n"

/-- The `HTTP/1.1 400 Bad Request` response line. -/
def resp400 : List Char := str "HTTP/1.1 400 Bad Request\r\n\r\n"

/-- The `HTTP/1.1 502 Bad Gateway` response line. -/
def resp502 : List Char := str "HTTP/1.1 502 Bad Gateway\r\n\r\n"

/-- Connection state of `createProxy`: whether `meta.targetSocket` has
been set, and whether the client socket has been ended. -/
structure ConnState where
  target : Bool
  closed : Bool
deriving DecidableEq, Repr

/-- The `data` handler of `src/index.ts` lines 32-106 for one inbound
chunk.  `connectOk` is the outcome of the awaited `Bun.connect`: the
`try` block on success links the target socket and then writes `200`;
the `catch` block writes `502` and ends the client. -/
def dataHandler (st : ConnState) (chunk : List Char) (connectOk : Bool) :
    ConnState × List Effect :=
  if st.closed then (st, [])
  else if st.target then (st, [.writeTarget chunk])
  else
    match parseConnect chunk with
    | none => ({ st with closed := true }, [.writeClient resp400, .endClient])
    | some (h, p) =>
        if connectOk then
          ({ st with target := true }, [.connectTo h p, .writeClient resp200])
        else
          ({ st with closed := true }, [.connectTo h p, .writeClient resp502, .endClient])

/-- Run a sequence of client data chunks (each paired with the connect
outcome that would apply if a connection attempt is made). -/
def runConn (st : ConnState) : List (List Char × Bool) → ConnState × List Effect
  | [] => (st, [])
  | (chunk, ok) :: rest =>
      let s1 := dataHandler st chunk ok
      let s2 := runConn s1.1 rest
      (s2.1, s1.2 ++ s2.2)

/-- Effects of established-tunnel chunks: each is piped to the target. -/
def tunnelEffs (rest : List (List Char × Bool)) : List Effect :=
  rest.map (fun cb => Effect.writeTarget cb.1)

/-- Events delivered by the target socket of `src/index.ts`
lines 72-86. -/
inductive TargetEvent
  | tdata (bytes : List Char)
  | tclose
  | terror
deriving DecidableEq, Repr

/-- The target socket callbacks: `data` pipes to the client, `close`
ends the client, `error` writes `502 Bad Gateway` and ends the client
(unconditionally). -/
def targetHandler : TargetEvent → List Effect
  | .tdata b => [.writeClient b]
  | .tclose => [.endClient]
  | .terror => [.writeClient resp502, .endClient]

/-- Effects of a sequence of target-side events. -/
def runTarget : List TargetEvent → List Effect
  | [] => []
  | e :: rest => targetHandler e ++ runTarget rest

/-! ### Domain endpoint cache (`src/serve.ts`)

`serve.ts` keeps `const servers = new Map<string, Bun.Server>()` and
serves each request with
`servers.get(domain) || await createServerForDomain(domain)`.
The body of `createServerForDomain` runs `await createCSR`,
`await signCSRWithFullChain`, `Bun.serve`, and only then
`servers.set(domain, server)`.  The models below make the cache state
explicit; the suspension between the lookup and the completed creation
is what the concurrency step machine interleaves. -/

/-- Cache state: the `servers` map (association list, most recent entry
first), a fresh-id counter for endpoints, and how many certificate and
endpoint creations have completed. -/
structure SState where
  servers : List (List Char × Nat)
  nextId : Nat
  created : Nat
deriving DecidableEq, Repr

/-- Lookup `servers.get(domain)`. -/
def lookupServer (d : List Char) (l : List (List Char × Nat)) : Option Nat :=
  (l.find? (fun e => e.1 == d)).map (·.2)

/-- Update `servers.set(domain, id)`: replace any previous binding. -/
def setServer (d : List Char) (id : Nat) (l : List (List Char × Nat)) :
    List (List Char × Nat) :=
  (d, id) :: l.filter (fun e => e.1 != d)

/-- Progress of one in-flight CONNECT request task. -/
inductive Phase
  | start
  | creating
  | done (id : Nat)
deriving DecidableEq, Repr

/-- One scheduler step of a request task for domain `d`
(`src/serve.ts` lines 115-123).  From `start` the synchronous part runs:
the map lookup either hits (task finishes) or misses, upon which
`createServerForDomain` is entered and suspends at its first `await`.
From `creating` the creation completes atomically: certificate issued,
server constructed, `servers.set` executed. -/
def stepTask (st : SState) : Phase → List Char → SState × Phase
  | .start, d =>
      match lookupServer d st.servers with
      | some id => (st, .done id)
      | none => (st, .creating)
  | .creating, d =>
      let id := st.nextId
      ({ servers := setServer d id st.servers, nextId := id + 1,
         created := st.created + 1 }, .done id)
  | .done id, _ => (st, .done id)

/-- Run a schedule (a list of task indices); each entry steps the named
task once. -/
def runSched (st : SState) (tasks : List (Phase × List Char)) :
    List Nat → SState × List (Phase × List Char)
  | [] => (st, tasks)
  | i :: rest =>
      match tasks[i]? with
      | none => runSched st tasks rest
      | some (ph, d) =>
          let s := stepTask st ph d
          runSched s.1 (tasks.set i (s.2, d)) rest

/-- One request run to completion with no interleaving: the lookup and,
on a miss, the whole of `createServerForDomain`. -/
def seqRequest (st : SState) (d : List Char) : SState × Nat :=
  match lookupServer d st.servers with
  | some id => (st, id)
  | none =>
      let id := st.nextId
      ({ servers := setServer d id st.servers, nextId := id + 1,
         created := st.created + 1 }, id)

/-- Run `n` sequential requests for domain `d`, collecting the endpoint
each one is served by. -/
def seqRun (st : SState) (d : List Char) : Nat → SState × List Nat
  | 0 => (st, [])
  | n + 1 =>
      let s1 := seqRequest st d
      let s2 := seqRun s1.1 d n
      (s2.1, s1.2 :: s2.2)

/-- Outcomes of the fallible steps of `createServerForDomain`
(`src/serve.ts` lines 75-113): `await createCSR`,
`await signCSRWithFullChain`, and the `Bun.serve` TLS-server
construction. -/
structure IssueEnv where
  csrOk : Bool
  signOk : Bool
  serveOk : Bool
deriving DecidableEq, Repr

/-- Embedding of `createServerForDomain` with its fallible steps made explicit: a
throw at any step propagates before `servers.set` is reached, leaving
the cache untouched; on success the new server is stored. -/
def createServerForDomainE (env : IssueEnv) (st : SState) (d : List Char) :
    SState × Except Unit Nat :=
  if env.csrOk = false then (st, .error ())
  else if env.signOk = false then (st, .error ())
  else if env.serveOk = false then (st, .error ())
  else
    let id := st.nextId
    ({ servers := setServer d id st.servers, nextId := id + 1,
       created := st.created + 1 }, .ok id)

/-- Embedding of `onConnectRequest` (`src/serve.ts` lines 115-123) for a request
whose Host header names domain `d`:
`servers.get(domain) || await createServerForDomain(domain)`. -/
def onConnectRequestE (env : IssueEnv) (st : SState) (d : List Char) :
    SState × Except Unit Nat :=
  match lookupServer d st.servers with
  | some id => (st, .ok id)
  | none => createServerForDomainE env st d

/-! ### Root CA loading (`src/serve.ts` lines 23-71) -/

/-- The on-disk situation `loadRootCA` faces: whether each PEM file
exists, whether `Certificate.fromBER` succeeds on the cert file, and
whether `crypto.subtle.importKey` succeeds on the key file. -/
structure CAFiles where
  certExists : Bool
  keyExists : Bool
  certParses : Bool
  keyImports : Bool
deriving DecidableEq, Repr

/-- Where the returned RootCA came from. -/
inductive CASource
  | loaded
  | generated
deriving DecidableEq, Repr

/-- Result of `loadRootCA`: the CA's provenance and the files written. -/
structure LoadOutcome where
  source : CASource
  writes : List String
deriving DecidableEq, Repr

/-- Embedding of `loadRootCA`: when both files exist it tries to decode them inside a
`try` block and returns the reconstructed CA on success; any decode
or import failure falls through to the regeneration path, which also runs
when a file is missing, and which writes both PEM artifacts. -/
def loadRootCAE (fs : CAFiles) : LoadOutcome :=
  if fs.certExists && fs.keyExists then
    if fs.certParses && fs.keyImports then
      { source := .loaded, writes := [] }
    else
      { source := .generated,
        writes := ["./certs/rootCA.crt", "./certs/rootCA.key"] }
  else
    { source := .generated,
      writes := ["./certs/rootCA.crt", "./certs/rootCA.key"] }

/-! ### Certificate issuance (`src/certs/serverCert.ts`)

The X.509 structures are embedded at the level the claims speak about:
subject and issuer common names, the subject public key (represented by
the identifier of the generated key pair), and the extension list.
Signatures and DER serialisation are the out-of-scope crypto
primitives. -/

/-- Value of an X.509 extension, at the granularity the source builds
them. -/
inductive ExtValue
  | san (dns : List (List Char))
  | basicConstraints (cA : Bool)
  | keyUsage (bits : Nat)
  | subjectKeyId
  | authorityKeyId
deriving DecidableEq, Repr

/-- An X.509 extension as built by pkijs `new Extension({...})`. -/
structure ExtensionM where
  extnID : String
  critical : Bool
  value : ExtValue
deriving DecidableEq, Repr

/-- A certification request as built by `createCSR`. -/
structure CSRm where
  subjectCN : List Char
  spki : Nat
  attrExtensions : List ExtensionM
deriving DecidableEq, Repr

/-- A certificate as built by `signCSR` / `generateRootCA`. -/
structure Certm where
  issuerCN : List Char
  subjectCN : List Char
  spki : Nat
  serialNumber : Nat
  validityDays : Nat
  extensions : List ExtensionM
deriving DecidableEq, Repr

/-- The root CA material `signCSR` consumes. -/
structure RootCAm where
  subjectCN : List Char
  keyId : Nat
deriving DecidableEq, Repr

/-- Embedding of `createCSR(domain)` (`src/certs/serverCert.ts` lines 39-85):
subject CN = domain, a fresh key pair (`keyId`), and an
`extensionRequest` attribute holding a subjectAltName extension whose
GeneralNames sequence contains the single dNSName `domain`
(lines 58-64 build exactly one `dnsName` primitive). -/
def createCSRm (domain : List Char) (keyId : Nat) : CSRm :=
  { subjectCN := domain, spki := keyId,
    attrExtensions := [⟨"2.5.29.17", false, .san [domain]⟩] }

/-- Embedding of `signCSR(rootCA, csr, validityDays)` (`src/certs/serverCert.ts`
lines 90-122): issuer = CA subject, subject and public key copied from
the CSR, serial = current timestamp (`now`), and an extension list
containing only the critical `basicConstraints cA=false`
(lines 111-113). -/
def signCSRm (ca : RootCAm) (csr : CSRm) (now validityDays : Nat) : Certm :=
  { issuerCN := ca.subjectCN, subjectCN := csr.subjectCN, spki := csr.spki,
    serialNumber := now, validityDays := validityDays,
    extensions := [⟨"2.5.29.19", true, .basicConstraints false⟩] }

/-- DNS names of the certificate's subjectAltName extension, if any. -/
def sanDNSNames (c : Certm) : Option (List (List Char)) :=
  match c.extensions.find? (fun e => e.extnID == "2.5.29.17") with
  | some e =>
      match e.value with
      | .san l => some l
      | _ => none
  | none => none

/-- DNS names requested by the CSR's extensionRequest attribute. -/
def csrSanDNSNames (csr : CSRm) : Option (List (List Char)) :=
  match csr.attrExtensions.find? (fun e => e.extnID == "2.5.29.17") with
  | some e =>
      match e.value with
      | .san l => some l
      | _ => none
  | none => none

/-! ## Lemmas about the base64 codec -/

theorem decChar_encChar : ∀ v < 64, decChar (encChar v) = v := by decide

theorem encChar_mem (v : Nat) : encChar v ∈ b64Alphabet := by
  rw [encChar]
  by_cases h : v < b64Alphabet.length
  · rw [List.getD_eq_getElem b64Alphabet 'A' h]
    exact List.getElem_mem h
  · rw [List.getD_eq_default b64Alphabet 'A' (by omega)]
    decide

theorem b64Alphabet_chars : ∀ c ∈ b64Alphabet,
    c ≠ '=' ∧ c ≠ '-' ∧ isSpaceJS c = false := by decide

theorem encChar_ne_pad (v : Nat) : encChar v ≠ '=' :=
  (b64Alphabet_chars _ (encChar_mem v)).1

theorem btoa_chars : ∀ l, ∀ c ∈ btoa l, c ∈ b64Alphabet ∨ c = '=' := by
  intro l
  induction l using btoa.induct with
  | case1 => simp [btoa]
  | case2 b1 =>
      simp only [btoa, List.mem_cons, List.not_mem_nil, or_false]
      rintro c (rfl | rfl | rfl | rfl) <;> simp [encChar_mem]
  | case3 b1 b2 =>
      simp only [btoa, List.mem_cons, List.not_mem_nil, or_false]
      rintro c (rfl | rfl | rfl | rfl) <;> simp [encChar_mem]
  | case4 b1 b2 b3 rest ih =>
      simp only [btoa, List.mem_cons]
      rintro c (rfl | rfl | rfl | rfl | hc)
      · exact Or.inl (encChar_mem _)
      · exact Or.inl (encChar_mem _)
      · exact Or.inl (encChar_mem _)
      · exact Or.inl (encChar_mem _)
      · exact ih c hc

theorem btoa_char_ne_dash {l : List Nat} {c : Char} (h : c ∈ btoa l) : c ≠ '-' := by
  rcases btoa_chars l c h with hm | rfl
  · exact (b64Alphabet_chars c hm).2.1
  · decide

theorem btoa_char_not_space {l : List Nat} {c : Char} (h : c ∈ btoa l) :
    isSpaceJS c = false := by
  rcases btoa_chars l c h with hm | rfl
  · exact (b64Alphabet_chars c hm).2.2
  · decide

theorem btoa_char_ne_nl {l : List Nat} {c : Char} (h : c ∈ btoa l) : c ≠ '\n' := by
  intro hc
  have := btoa_char_not_space h
  rw [hc] at this
  simp [isSpaceJS] at this

/-- Round trip of the base64 codec on byte lists. -/
theorem atob_btoa : ∀ l : List Nat, (∀ b ∈ l, b < 256) → atob (btoa l) = l := by
  intro l
  induction l using btoa.induct with
  | case1 => intro _; rfl
  | case2 b1 =>
      intro h
      have hb1 : b1 < 256 := h b1 (by simp)
      have e1 : decChar (encChar (b1 / 4)) = b1 / 4 := decChar_encChar _ (by omega)
      have e2 : decChar (encChar (b1 % 4 * 16)) = b1 % 4 * 16 :=
        decChar_encChar _ (by omega)
      simp [btoa, atob, e1, e2]
      omega
  | case3 b1 b2 =>
      intro h
      have hb1 : b1 < 256 := h b1 (by simp)
      have hb2 : b2 < 256 := h b2 (by simp)
      have e1 : decChar (encChar (b1 / 4)) = b1 / 4 := decChar_encChar _ (by omega)
      have e2 : decChar (encChar (b1 % 4 * 16 + b2 / 16)) = b1 % 4 * 16 + b2 / 16 :=
        decChar_encChar _ (by omega)
      have e3 : decChar (encChar (b2 % 16 * 4)) = b2 % 16 * 4 :=
        decChar_encChar _ (by omega)
      simp [btoa, atob, e1, e2, e3, encChar_ne_pad]
      omega
  | case4 b1 b2 b3 rest ih =>
      intro h
      have hb1 : b1 < 256 := h b1 (by simp)
      have hb2 : b2 < 256 := h b2 (by simp)
      have hb3 : b3 < 256 := h b3 (by simp)
      have hrest : ∀ b ∈ rest, b < 256 := fun b hb => h b (by simp [hb])
      have e1 : decChar (encChar (b1 / 4)) = b1 / 4 := decChar_encChar _ (by omega)
      have e2 : decChar (encChar (b1 % 4 * 16 + b2 / 16)) = b1 % 4 * 16 + b2 / 16 :=
        decChar_encChar _ (by omega)
      have e3 : decChar (encChar (b2 % 16 * 4 + b3 / 64)) = b2 % 16 * 4 + b3 / 64 :=
        decChar_encChar _ (by omega)
      have e4 : decChar (encChar (b3 % 64)) = b3 % 64 := decChar_encChar _ (by omega)
      simp [btoa, atob, e1, e2, e3, e4, encChar_ne_pad, ih hrest]
      omega

/-! ## Lemmas about PEM wrapping -/

/-- Stripping whitespace undoes the 64-column wrapping. -/
theorem chunk64_filter : ∀ s : List Char, (∀ c ∈ s, isSpaceJS c = false) →
    (chunk64 s).filter (fun c => !isSpaceJS c) = s := by
  intro s
  induction s using chunk64.induct with
  | case1 s h64 heq =>
      intro hs
      rw [chunk64, if_pos h64, if_pos heq]
      simp only [List.filter_append]
      rw [List.filter_eq_self.mpr (by intro a ha; simp [hs a ha])]
      simp [isSpaceJS]
  | case2 s h64 hne =>
      intro hs
      rw [chunk64, if_pos h64, if_neg hne]
      exact List.filter_eq_self.mpr (by intro a ha; simp [hs a ha])
  | case3 s h64 ih =>
      intro hs
      rw [chunk64, if_neg h64]
      rw [List.filter_append, List.filter_cons, if_neg (by decide)]
      rw [List.filter_eq_self.mpr (by intro a ha; simp [hs a (List.take_subset _ _ ha)])]
      rw [ih (fun c hc => hs c (List.drop_subset _ _ hc))]
      exact List.take_append_drop 64 s

/-- Splitting at a newline that follows newline-free text. -/
theorem splitNl_append_nl : ∀ a b : List Char, (∀ c ∈ a, c ≠ '\n') →
    splitNl (a ++ '\n' :: b) = a :: splitNl b := by
  intro a
  induction a with
  | nil => intro b _; simp [splitNl]
  | cons c a' ih =>
      intro b hc
      have hcn : c ≠ '\n' := hc c (by simp)
      have ha' := ih b (fun x hx => hc x (by simp [hx]))
      rw [List.cons_append, splitNl.eq_def]
      simp only [ha']

/-- Line decomposition of the wrapped base64 body followed by the
template newline. -/
theorem splitNl_chunk64 : ∀ s t : List Char, (∀ c ∈ s, c ≠ '\n') →
    splitNl (chunk64 s ++ '\n' :: t) = bodyLines s ++ splitNl t := by
  intro s
  induction s using bodyLines.induct with
  | case1 s h64 heq =>
      intro t hs
      rw [chunk64, if_pos h64, if_pos heq, bodyLines, if_pos h64, if_pos heq]
      rw [List.append_assoc, List.singleton_append, splitNl_append_nl s _ hs]
      simp [splitNl]
  | case2 s h64 hne =>
      intro t hs
      rw [chunk64, if_pos h64, if_neg hne, bodyLines, if_pos h64, if_neg hne]
      rw [splitNl_append_nl s t hs]
      simp
  | case3 s h64 ih =>
      intro t hs
      rw [chunk64, if_neg h64, bodyLines, if_neg h64]
      rw [List.append_assoc, List.cons_append]
      rw [splitNl_append_nl _ _ (fun c hc => hs c (List.take_subset _ _ hc))]
      rw [ih t (fun c hc => hs c (List.drop_subset _ _ hc))]
      simp

/-- Characters of the `BEGIN` marker line of a newline-free label. -/
theorem beginLine_no_nl {label : List Char} (h : ∀ c ∈ label, c ≠ '\n') :
    ∀ c ∈ beginLine label, c ≠ '\n' := by
  intro c hc
  rcases List.mem_append.mp hc with hc | hc
  · rcases List.mem_append.mp hc with hc | hc
    · exact (by decide : ∀ x ∈ str "-----BEGIN ", x ≠ '\n') c hc
    · exact h c hc
  · exact (by decide : ∀ x ∈ str "-----", x ≠ '\n') c hc

/-- Characters of the `END` marker line of a newline-free label. -/
theorem endLine_no_nl {label : List Char} (h : ∀ c ∈ label, c ≠ '\n') :
    ∀ c ∈ endLine label, c ≠ '\n' := by
  intro c hc
  rcases List.mem_append.mp hc with hc | hc
  · rcases List.mem_append.mp hc with hc | hc
    · exact (by decide : ∀ x ∈ str "-----END ", x ≠ '\n') c hc
    · exact h c hc
  · exact (by decide : ∀ x ∈ str "-----", x ≠ '\n') c hc

/-- The line decomposition of a `toPEM` output: the BEGIN marker, the
base64 body lines, the END marker, and the empty fragment after the
final newline. -/
theorem toPEM_lines (der : List Nat) (label : List Char)
    (h : ∀ c ∈ label, c ≠ '\n') :
    splitNl (toPEM der label) =
      beginLine label :: (bodyLines (btoa der) ++ [endLine label, []]) := by
  rw [toPEM]
  simp only [List.append_assoc, List.cons_append]
  rw [splitNl_append_nl _ _ (beginLine_no_nl h)]
  rw [splitNl_chunk64 _ _ (fun c hc => btoa_char_ne_nl hc)]
  have hE : endLine label ++ ['\n'] = endLine label ++ '\n' :: [] := rfl
  rw [hE, splitNl_append_nl _ _ (endLine_no_nl h)]
  simp [splitNl]

/-- Every line of the base64 body is empty or drawn from the body's
characters. -/
theorem bodyLines_chars : ∀ s : List Char, ∀ l ∈ bodyLines s, ∀ c ∈ l, c ∈ s := by
  intro s
  induction s using bodyLines.induct with
  | case1 s h64 heq =>
      rw [bodyLines, if_pos h64, if_pos heq]
      intro l hl c hc
      simp only [List.mem_cons, List.not_mem_nil, or_false] at hl
      rcases hl with rfl | rfl
      · exact hc
      · simp at hc
  | case2 s h64 hne =>
      rw [bodyLines, if_pos h64, if_neg hne]
      intro l hl c hc
      simp only [List.mem_cons, List.not_mem_nil, or_false] at hl
      subst hl
      exact hc
  | case3 s h64 ih =>
      rw [bodyLines, if_neg h64]
      intro l hl c hc
      simp only [List.mem_cons] at hl
      rcases hl with rfl | hl
      · exact List.take_subset _ _ hc
      · exact List.drop_subset _ _ (ih l hl c hc)

/-- Joining the body lines recovers the base64 text. -/
theorem bodyLines_join : ∀ s : List Char, (bodyLines s).flatten = s := by
  intro s
  induction s using bodyLines.induct with
  | case1 s h64 heq => rw [bodyLines, if_pos h64, if_pos heq]; simp
  | case2 s h64 hne => rw [bodyLines, if_pos h64, if_neg hne]; simp
  | case3 s h64 ih =>
      rw [bodyLines, if_neg h64]
      simp [ih]

/-- The body contains an empty line exactly when the base64 text fills
its last 64-column row completely. -/
theorem nil_mem_bodyLines : ∀ s : List Char,
    [] ∈ bodyLines s ↔ s.length % 64 = 0 := by
  intro s
  induction s using bodyLines.induct with
  | case1 s h64 heq =>
      rw [bodyLines, if_pos h64, if_pos heq]
      simp [heq]
  | case2 s h64 hne =>
      rw [bodyLines, if_pos h64, if_neg hne]
      constructor
      · intro hmem
        simp at hmem
        subst hmem
        simp
      · intro hmod
        have : s.length = 0 := by omega
        simp [List.length_eq_zero.mp this]
  | case3 s h64 ih =>
      rw [bodyLines, if_neg h64]
      have htake : (s.take 64).length = 64 := by
        rw [List.length_take]
        omega
      constructor
      · intro hmem
        simp only [List.mem_cons] at hmem
        rcases hmem with h | h
        · rw [← h] at htake
          simp at htake
        · have := ih.mp h
          rw [List.length_drop] at this
          omega
      · intro hmod
        exact List.mem_cons_of_mem _ (ih.mpr (by rw [List.length_drop]; omega))

/-- Characters of the wrapped body come from the body or are the
inserted newlines. -/
theorem chunk64_chars : ∀ s : List Char, ∀ c ∈ chunk64 s, c ∈ s ∨ c = '\n' := by
  intro s
  induction s using chunk64.induct with
  | case1 s h64 heq =>
      rw [chunk64, if_pos h64, if_pos heq]
      intro c hc
      rcases List.mem_append.mp hc with hc | hc
      · exact Or.inl hc
      · simp at hc
        exact Or.inr hc
  | case2 s h64 hne =>
      rw [chunk64, if_pos h64, if_neg hne]
      exact fun c hc => Or.inl hc
  | case3 s h64 ih =>
      rw [chunk64, if_neg h64]
      intro c hc
      rcases List.mem_append.mp hc with hc | hc
      · exact Or.inl (List.take_subset _ _ hc)
      · rcases List.mem_cons.mp hc with rfl | hc
        · exact Or.inr rfl
        · rcases ih c hc with hc | hc
          · exact Or.inl (List.drop_subset _ _ hc)
          · exact Or.inr hc

/-! ## Lemmas about the regex matcher of `pemToDer` -/

theorem takeWhile_append_stop (p : Char → Bool) :
    ∀ (a : List Char) (x : Char) (b : List Char), (∀ c ∈ a, p c = true) →
      p x = false → (a ++ x :: b).takeWhile p = a := by
  intro a
  induction a with
  | nil =>
      intro x b _ hx
      simp [List.takeWhile_cons, hx]
  | cons c a' ih =>
      intro x b ha hx
      have hc : p c = true := ha c (by simp)
      simp only [List.cons_append, List.takeWhile_cons, hc, if_true]
      rw [ih x b (fun d hd => ha d (by simp [hd])) hx]

/-- A list is a Boolean prefix of itself followed by anything. -/
theorem isPrefixOf_append_self : ∀ a b : List Char, a.isPrefixOf (a ++ b) = true := by
  intro a b
  induction a with
  | nil => simp [List.isPrefixOf]
  | cons c a' ih => simp [List.isPrefixOf, ih]

/-- A successful Boolean prefix check yields an append decomposition. -/
theorem eq_append_of_isPrefixOf : ∀ a s : List Char,
    a.isPrefixOf s = true → ∃ t, s = a ++ t := by
  intro a
  induction a with
  | nil => exact fun s _ => ⟨s, rfl⟩
  | cons c a' ih =>
      intro s h
      cases s with
      | nil => simp [List.isPrefixOf] at h
      | cons d s' =>
          simp only [List.isPrefixOf, Bool.and_eq_true, beq_iff_eq] at h
          obtain ⟨rfl, h2⟩ := h
          obtain ⟨t, rfl⟩ := ih s' h2
          exact ⟨t, rfl⟩

/-- C8 helper: the dash-pattern matcher succeeds on its own marker: the greedy
dash-free run is exactly the label and the five closing dashes follow. -/
theorem matchDashPat_marker (intro label tail : List Char)
    (hne : label ≠ []) (hdash : ∀ c ∈ label, c ≠ '-') :
    matchDashPat intro (intro ++ (label ++ (str "-----" ++ tail))) =
      some (intro.length + label.length + 5) := by
  rw [matchDashPat]
  rw [if_pos (isPrefixOf_append_self _ _)]
  simp only [List.drop_left]
  have hsplit : label ++ (str "-----" ++ tail) =
      label ++ '-' :: (str "----" ++ tail) := rfl
  rw [hsplit]
  rw [takeWhile_append_stop _ label '-' _
    (fun c hc => by simp [hdash c hc]) (by simp)]
  have hdrop : (label ++ '-' :: (str "----" ++ tail)).drop label.length =
      '-' :: (str "----" ++ tail) := List.drop_left _ _
  rw [hdrop]
  rw [if_pos]
  constructor
  · simp [hne]
  · exact isPrefixOf_append_self (str "-----") tail

/-- A marker pattern never matches the empty string. -/
theorem matchDashPat_nil (intro : List Char) (hi : intro ≠ []) :
    matchDashPat intro [] = none := by
  cases intro with
  | nil => exact absurd rfl hi
  | cons i0 irest =>
      rw [matchDashPat, if_neg]
      simp [List.isPrefixOf]

/-- If the pattern matches the whole string, the first-match removal
deletes exactly the matched length. -/
theorem removeFirstMatch_here (pat : List Char → Option Nat) (s : List Char)
    (n : Nat) (hmatch : pat s = some n) (hnil : pat [] = none) :
    removeFirstMatch pat s = s.drop n := by
  cases s with
  | nil => rw [hnil] at hmatch; cases hmatch
  | cons c rest =>
      rw [removeFirstMatch, hmatch]

/-- The scanner passes over a dash-free prefix without matching, since a
marker pattern starts with a dash. -/
theorem removeFirstMatch_skip (intro : List Char) (hi : intro.head? = some '-') :
    ∀ (a s : List Char), (∀ c ∈ a, c ≠ '-') →
      removeFirstMatch (matchDashPat intro) (a ++ s) =
        a ++ removeFirstMatch (matchDashPat intro) s := by
  obtain ⟨irest, rfl⟩ : ∃ irest, intro = '-' :: irest := by
    cases intro with
    | nil => simp at hi
    | cons i0 it =>
        simp only [List.head?_cons, Option.some.injEq] at hi
        exact ⟨it, by rw [hi]⟩
  intro a
  induction a with
  | nil => intro s _; rfl
  | cons c a' ih =>
      intro s ha
      have hc : c ≠ '-' := ha c (by simp)
      rw [List.cons_append, removeFirstMatch]
      have hmiss : matchDashPat ('-' :: irest) (c :: (a' ++ s)) = none := by
        rw [matchDashPat, if_neg]
        simp only [List.isPrefixOf, Bool.and_eq_true, beq_iff_eq]
        intro hand
        exact hc hand.1.symm
      rw [hmiss]
      rw [ih s (fun d hd => ha d (by simp [hd]))]
      simp

/-- C8 helper: stripping the BEGIN marker from a `toPEM` output. -/
theorem removeBegin_toPEM (der : List Nat) (label : List Char)
    (hne : label ≠ []) (hdash : ∀ c ∈ label, c ≠ '-') :
    removeFirstMatch (matchDashPat (str "-----BEGIN ")) (toPEM der label) =
      '\n' :: chunk64 (btoa der) ++ '\n' :: endLine label ++ ['\n'] := by
  have hshape : toPEM der label =
      str "-----BEGIN " ++ (label ++ (str "-----" ++
        ('\n' :: chunk64 (btoa der) ++ '\n' :: endLine label ++ ['\n']))) := by
    rw [toPEM, beginLine]
    simp [List.append_assoc]
  rw [hshape]
  rw [removeFirstMatch_here _ _ _
    (matchDashPat_marker (str "-----BEGIN ") label _ hne hdash)
    (matchDashPat_nil _ (by decide))]
  have hgroup : str "-----BEGIN " ++ (label ++ (str "-----" ++
      ('\n' :: chunk64 (btoa der) ++ '\n' :: endLine label ++ ['\n']))) =
      (str "-----BEGIN " ++ label ++ str "-----") ++
        ('\n' :: chunk64 (btoa der) ++ '\n' :: endLine label ++ ['\n']) := by
    simp [List.append_assoc]
  rw [hgroup]
  have hlen : (str "-----BEGIN ").length + label.length + 5 =
      (str "-----BEGIN " ++ label ++ str "-----").length := by
    simp [List.length_append, str]
    omega
  rw [hlen, List.drop_left]

/-- C8 helper: stripping the END marker from what remains. -/
theorem removeEnd_rest (der : List Nat) (label : List Char)
    (hne : label ≠ []) (hdash : ∀ c ∈ label, c ≠ '-') :
    removeFirstMatch (matchDashPat (str "-----END "))
        ('\n' :: chunk64 (btoa der) ++ '\n' :: endLine label ++ ['\n']) =
      '\n' :: chunk64 (btoa der) ++ '\n' :: ['\n'] := by
  have hshape : '\n' :: chunk64 (btoa der) ++ '\n' :: endLine label ++ ['\n'] =
      ('\n' :: chunk64 (btoa der) ++ ['\n']) ++
        (str "-----END " ++ (label ++ (str "-----" ++ ['\n']))) := by
    rw [endLine]
    simp [List.append_assoc]
  rw [hshape]
  rw [removeFirstMatch_skip (str "-----END ") (by decide) _ _ ?hda]
  case hda =>
    intro c hc
    rcases List.mem_cons.mp hc with rfl | hc
    · decide
    · rcases List.mem_append.mp hc with hc | hc
      · rcases chunk64_chars _ c hc with hc | rfl
        · exact btoa_char_ne_dash hc
        · decide
      · simp at hc
        subst hc
        decide
  rw [removeFirstMatch_here _ _ _
    (matchDashPat_marker (str "-----END ") label _ hne hdash)
    (matchDashPat_nil _ (by decide))]
  have hgroup : str "-----END " ++ (label ++ (str "-----" ++ ['\n'])) =
      (str "-----END " ++ label ++ str "-----") ++ ['\n'] := by
    simp [List.append_assoc]
  rw [hgroup]
  have hlen : (str "-----END ").length + label.length + 5 =
      (str "-----END " ++ label ++ str "-----").length := by
    simp [List.length_append, str]
    omega
  rw [hlen, List.drop_left]
  simp

/-- C8: for every DER byte buffer and every non-empty dash-free label,
`pemToDer` is a left inverse of `toPEM`: persisting a PEM artifact and
decoding it reproduces the identical bytes.  In particular the persisted
root CA certificate PEM decodes back to the very DER that was encoded,
so re-parsing it yields the same certificate (same subject CN) and the
same PKCS#8 key material. -/
theorem pemToDer_toPEM_roundtrip (der : List Nat) (label : List Char)
    (hb : ∀ b ∈ der, b < 256) (hne : label ≠ [])
    (hdash : ∀ c ∈ label, c ≠ '-') :
    pemToDer (toPEM der label) = der := by
  rw [pemToDer]
  rw [removeBegin_toPEM der label hne hdash]
  rw [removeEnd_rest der label hne hdash]
  have hfil : ('\n' :: chunk64 (btoa der) ++ '\n' :: ['\n']).filter
      (fun c => !isSpaceJS c) = btoa der := by
    rw [List.cons_append]
    rw [List.filter_cons]
    rw [if_neg (by decide)]
    rw [List.filter_append]
    rw [chunk64_filter _ (fun c hc => btoa_char_not_space hc)]
    simp [isSpaceJS]
  rw [hfil]
  exact atob_btoa der hb

/-- Witness for C8 at a concrete DER buffer and the CERTIFICATE label. -/
theorem pemToDer_toPEM_roundtrip_witness :
    pemToDer (toPEM [48, 130, 1, 10] (str "CERTIFICATE")) = [48, 130, 1, 10] :=
  pemToDer_toPEM_roundtrip [48, 130, 1, 10] (str "CERTIFICATE")
    (by decide) (by decide) (by decide)

/-- No base64 body line coincides with a marker line: marker lines start
with a dash and base64 text contains none. -/
theorem bodyLines_ne_marker (der : List Nat) (lbl : List Char) :
    ∀ l ∈ bodyLines (btoa der), l ≠ beginLine lbl ∧ l ≠ endLine lbl := by
  intro l hl
  have hdash : '-' ∉ l := by
    intro hmem
    exact btoa_char_ne_dash (bodyLines_chars _ l hl '-' hmem) rfl
  constructor
  · intro heq
    apply hdash
    rw [heq, beginLine]
    exact List.mem_append.mpr (Or.inl (List.mem_append.mpr (Or.inl (by decide))))
  · intro heq
    apply hdash
    rw [heq, endLine]
    exact List.mem_append.mpr (Or.inl (List.mem_append.mpr (Or.inl (by decide))))

/-- The marker lines are never empty. -/
theorem beginLine_ne_nil (lbl : List Char) : beginLine lbl ≠ [] := by
  intro h
  have := congrArg List.length h
  simp [beginLine, str] at this

/-- The END marker line is never empty. -/
theorem endLine_ne_nil (lbl : List Char) : endLine lbl ≠ [] := by
  intro h
  have := congrArg List.length h
  simp [endLine, str] at this

/-- C7: the chain PEM built by `createServerForDomain` is the leaf
certificate PEM, a newline, and the root CA certificate PEM; its line
decomposition is a CERTIFICATE block holding the leaf's base64 followed
by a CERTIFICATE block holding the root's base64 — so it contains
exactly two `-----BEGIN CERTIFICATE-----` lines (and two END lines),
with the leaf block first and the root block second. -/
theorem fullChainPEM_two_certificate_blocks (leafDER rootDER : List Nat) :
    fullChainPEM (toPEM leafDER (str "CERTIFICATE"))
        (toPEM rootDER (str "CERTIFICATE")) =
      toPEM leafDER (str "CERTIFICATE") ++
        '\n' :: toPEM rootDER (str "CERTIFICATE") ∧
    splitNl (fullChainPEM (toPEM leafDER (str "CERTIFICATE"))
        (toPEM rootDER (str "CERTIFICATE"))) =
      (beginLine (str "CERTIFICATE") ::
        (bodyLines (btoa leafDER) ++ [endLine (str "CERTIFICATE"), []])) ++
      (beginLine (str "CERTIFICATE") ::
        (bodyLines (btoa rootDER) ++ [endLine (str "CERTIFICATE"), []])) ∧
    (splitNl (fullChainPEM (toPEM leafDER (str "CERTIFICATE"))
        (toPEM rootDER (str "CERTIFICATE")))).count
      (beginLine (str "CERTIFICATE")) = 2 ∧
    (splitNl (fullChainPEM (toPEM leafDER (str "CERTIFICATE"))
        (toPEM rootDER (str "CERTIFICATE")))).count
      (endLine (str "CERTIFICATE")) = 2 ∧
    (bodyLines (btoa leafDER)).flatten = btoa leafDER ∧
    (bodyLines (btoa rootDER)).flatten = btoa rootDER := by
  have hlblnl : ∀ c ∈ str "CERTIFICATE", c ≠ '\n' := by decide
  have hlines : splitNl (fullChainPEM (toPEM leafDER (str "CERTIFICATE"))
      (toPEM rootDER (str "CERTIFICATE"))) =
      (beginLine (str "CERTIFICATE") ::
        (bodyLines (btoa leafDER) ++ [endLine (str "CERTIFICATE"), []])) ++
      (beginLine (str "CERTIFICATE") ::
        (bodyLines (btoa rootDER) ++ [endLine (str "CERTIFICATE"), []])) := by
    have hshape : fullChainPEM (toPEM leafDER (str "CERTIFICATE"))
        (toPEM rootDER (str "CERTIFICATE")) =
        beginLine (str "CERTIFICATE") ++ '\n' ::
          (chunk64 (btoa leafDER) ++ '\n' ::
            (endLine (str "CERTIFICATE") ++ '\n' ::
              ('\n' :: toPEM rootDER (str "CERTIFICATE")))) := by
      rw [fullChainPEM, toPEM]
      simp [List.append_assoc]
    rw [hshape]
    rw [splitNl_append_nl _ _ (beginLine_no_nl hlblnl)]
    rw [splitNl_chunk64 _ _ (fun c hc => btoa_char_ne_nl hc)]
    rw [splitNl_append_nl _ _ (endLine_no_nl hlblnl)]
    rw [splitNl]
    rw [toPEM_lines rootDER _ hlblnl]
    simp
  refine ⟨rfl, hlines, ?_, ?_, bodyLines_join _, bodyLines_join _⟩
  · rw [hlines]
    have hzl : (bodyLines (btoa leafDER)).count (beginLine (str "CERTIFICATE")) = 0 :=
      List.count_eq_zero.mpr
        (fun hmem => (bodyLines_ne_marker leafDER _ _ hmem).1 rfl)
    have hzr : (bodyLines (btoa rootDER)).count (beginLine (str "CERTIFICATE")) = 0 :=
      List.count_eq_zero.mpr
        (fun hmem => (bodyLines_ne_marker rootDER _ _ hmem).1 rfl)
    simp [List.count_append, List.count_cons, hzl, hzr,
      beginLine_ne_nil, (by decide : beginLine (str "CERTIFICATE") ≠
        endLine (str "CERTIFICATE"))]
  · rw [hlines]
    have hzl : (bodyLines (btoa leafDER)).count (endLine (str "CERTIFICATE")) = 0 :=
      List.count_eq_zero.mpr
        (fun hmem => (bodyLines_ne_marker leafDER _ _ hmem).2 rfl)
    have hzr : (bodyLines (btoa rootDER)).count (endLine (str "CERTIFICATE")) = 0 :=
      List.count_eq_zero.mpr
        (fun hmem => (bodyLines_ne_marker rootDER _ _ hmem).2 rfl)
    simp [List.count_append, List.count_cons, hzl, hzr,
      endLine_ne_nil, (by decide : endLine (str "CERTIFICATE") ≠
        beginLine (str "CERTIFICATE"))]

/-- C10: the PEM body of `toPEM` ends in a blank line (an empty line
before the END marker and distinct from the empty fragment after the
final newline) exactly when the base64 text's length is a multiple of
64: the column-64 wrapping then appends a newline after the last full
chunk and the PEM template adds another. -/
theorem toPEM_blank_line_iff (der : List Nat) (label : List Char)
    (hnl : ∀ c ∈ label, c ≠ '\n') :
    splitNl (toPEM der label) =
      beginLine label :: (bodyLines (btoa der) ++ [endLine label, []]) ∧
    ([] ∈ (splitNl (toPEM der label)).dropLast ↔
      (btoa der).length % 64 = 0) := by
  have hlines := toPEM_lines der label hnl
  refine ⟨hlines, ?_⟩
  rw [hlines]
  have hconcat : beginLine label :: (bodyLines (btoa der) ++ [endLine label, []]) =
      (beginLine label :: (bodyLines (btoa der) ++ [endLine label])) ++ [[]] := by
    simp
  rw [hconcat, List.dropLast_concat]
  simp only [List.mem_cons, List.mem_append, List.mem_singleton,
    List.not_mem_nil, or_false]
  constructor
  · intro h
    rcases h with h | h | h
    · exact absurd h.symm (beginLine_ne_nil label)
    · exact (nil_mem_bodyLines _).mp h
    · exact absurd h.symm (endLine_ne_nil label)
  · intro h
    exact Or.inr (Or.inl ((nil_mem_bodyLines _).mpr h))

/-- Witness for C10: a four-character base64 body (not a multiple of 64)
has no blank line; the structural decomposition is discharged at the
same input. -/
theorem toPEM_blank_line_iff_witness :
    splitNl (toPEM [1, 2, 3] (str "CERTIFICATE")) =
      beginLine (str "CERTIFICATE") ::
        (bodyLines (btoa [1, 2, 3]) ++ [endLine (str "CERTIFICATE"), []]) ∧
    ([] ∈ (splitNl (toPEM [1, 2, 3] (str "CERTIFICATE"))).dropLast ↔
      (btoa [1, 2, 3]).length % 64 = 0) :=
  toPEM_blank_line_iff [1, 2, 3] (str "CERTIFICATE") (by decide)

/-- C1 (code behaviour): the certificate produced by `createCSR`
followed by `signCSR` carries no subjectAltName extension at all —
`signCSR` installs only the basicConstraints extension — and even the
CSR's extensionRequest asks for the single DNS name `domain`, not the
wildcard pair.  This contradicts the spec and the repository's own test
`domain cert includes both domain and wildcard SAN`
(`src/tests/certs.test.ts`). -/
theorem signCSR_drops_requested_SAN (d : List Char) (ca : RootCAm)
    (keyId now validityDays : Nat) :
    sanDNSNames (signCSRm ca (createCSRm d keyId) now validityDays) = none ∧
    csrSanDNSNames (createCSRm d keyId) = some [d] :=
  ⟨rfl, rfl⟩

/-- C4: if any step of `createServerForDomain` throws (CSR creation,
signing, or TLS server construction), the `servers` cache is left
exactly as it was — `servers.set` is never reached — and a subsequent
request for the same domain performs the whole creation from scratch
and then caches the endpoint. -/
theorem createServerForDomain_failure_leaves_cache (env : IssueEnv)
    (st : SState) (d : List Char)
    (h : (env.csrOk && env.signOk && env.serveOk) = false) :
    createServerForDomainE env st d = (st, .error ()) ∧
    (∀ env2 : IssueEnv, env2.csrOk = true → env2.signOk = true →
      env2.serveOk = true →
      createServerForDomainE env2 (createServerForDomainE env st d).1 d =
        ({ servers := setServer d st.nextId st.servers,
           nextId := st.nextId + 1, created := st.created + 1 },
         .ok st.nextId)) := by
  have hfail : createServerForDomainE env st d = (st, .error ()) := by
    rcases env with ⟨c, s, v⟩
    cases c <;> cases s <;> cases v <;> simp_all [createServerForDomainE]
  refine ⟨hfail, ?_⟩
  intro env2 h1 h2 h3
  rw [hfail]
  simp [createServerForDomainE, h1, h2, h3]

/-- Witness for C4: a failing signing step on an empty cache leaves it
empty, and the retry creates endpoint 0. -/
theorem createServerForDomain_failure_leaves_cache_witness :
    (((⟨true, false, true⟩ : IssueEnv).csrOk &&
      (⟨true, false, true⟩ : IssueEnv).signOk &&
      (⟨true, false, true⟩ : IssueEnv).serveOk) = false) ∧
    (createServerForDomainE ⟨true, false, true⟩ ⟨[], 0, 0⟩
        (str "example.com") = (⟨[], 0, 0⟩, .error ()) ∧
     (∀ env2 : IssueEnv, env2.csrOk = true → env2.signOk = true →
        env2.serveOk = true →
        createServerForDomainE env2
            (createServerForDomainE ⟨true, false, true⟩ ⟨[], 0, 0⟩
              (str "example.com")).1 (str "example.com") =
          ({ servers := setServer (str "example.com") 0 [],
             nextId := 1, created := 1 }, .ok 0))) :=
  ⟨by decide,
   createServerForDomain_failure_leaves_cache ⟨true, false, true⟩
     ⟨[], 0, 0⟩ (str "example.com") (by decide)⟩

/-- C6: `loadRootCA` performs no writes exactly when both PEM files
exist and decode, in which case the returned CA is the reconstructed
(loaded) one; in every other situation — a missing file or a
present-but-unparseable pair — it generates a fresh CA and persists both
PEM artifacts, and a corrupt pair takes exactly the same path as an
absent pair. -/
theorem loadRootCA_writes_iff (fs : CAFiles) :
    ((loadRootCAE fs).writes = [] ↔
      (fs.certExists && fs.keyExists && fs.certParses && fs.keyImports)
        = true) ∧
    ((loadRootCAE fs).source = .loaded ↔
      (fs.certExists && fs.keyExists && fs.certParses && fs.keyImports)
        = true) ∧
    ((loadRootCAE fs).writes = [] ∨
      (loadRootCAE fs).writes = ["./certs/rootCA.crt", "./certs/rootCA.key"]) ∧
    ((loadRootCAE fs).source = .generated ↔
      (loadRootCAE fs).writes = ["./certs/rootCA.crt", "./certs/rootCA.key"]) ∧
    (loadRootCAE { fs with certParses := false } =
      loadRootCAE ⟨false, false, false, fs.keyImports⟩) ∧
    (loadRootCAE { fs with keyImports := false } =
      loadRootCAE ⟨false, false, fs.certParses, false⟩) := by
  rcases fs with ⟨a, b, c, d⟩
  cases a <;> cases b <;> cases c <;> cases d <;> decide

/-- C2 (counterexample): two CONNECT tasks for the same unseen domain,
each performing its cache lookup before either creation completes,
create two endpoints (two certificate issuances) and finish on
different endpoints — there is no single-flight guard in
`servers.get(domain) || await createServerForDomain(domain)`. -/
theorem connect_concurrent_double_creation :
    (runSched ⟨[], 0, 0⟩
        [(.start, str "example.com"), (.start, str "example.com")]
        [0, 1, 0, 1]).1.created = 2 ∧
    (runSched ⟨[], 0, 0⟩
        [(.start, str "example.com"), (.start, str "example.com")]
        [0, 1, 0, 1]).2 =
      [(.done 0, str "example.com"), (.done 1, str "example.com")] ∧
    1 < (runSched ⟨[], 0, 0⟩
        [(.start, str "example.com"), (.start, str "example.com")]
        [0, 1, 0, 1]).1.created := by
  decide

/-- Sequential requests after a cache hit keep the state and repeat the
same endpoint id. -/
theorem seqRun_hit (st : SState) (d : List Char) (id : Nat)
    (h : lookupServer d st.servers = some id) :
    ∀ n, seqRun st d n = (st, List.replicate n id) := by
  intro n
  induction n with
  | zero => rfl
  | succ n ih =>
      rw [seqRun]
      rw [show seqRequest st d = (st, id) by rw [seqRequest, h]]
      rw [ih]
      simp [List.replicate_succ]

/-- C2 (amended): when the requests are handled one after another —
each completing before the next lookup — exactly one creation happens
and every request is served by that same endpoint. -/
theorem connect_sequential_single_creation (d : List Char) (n : Nat) :
    (seqRun ⟨[], 0, 0⟩ d (n + 1)).1.created = 1 ∧
    (seqRun ⟨[], 0, 0⟩ d (n + 1)).2 = List.replicate (n + 1) 0 := by
  have hfirst : seqRequest ⟨[], 0, 0⟩ d =
      ({ servers := [(d, 0)], nextId := 1, created := 1 }, 0) := by
    rw [seqRequest]
    simp [lookupServer, setServer]
  have hhit : lookupServer d [(d, 0)] = some 0 := by
    simp [lookupServer, List.find?]
  rw [seqRun, hfirst, seqRun_hit _ _ _ hhit n]
  simp [List.replicate_succ]

/-- C5 (counterexample): on a tunnel that has already relayed a byte
the target-side `error` callback still writes the `502 Bad Gateway`
status line to the client — refuting, at this concrete trace, the claim
that after tunneling has begun a target failure never surfaces as an
HTTP status line. -/
theorem target_error_502_after_bytes :
    runTarget [.tdata (str "x"), .terror] =
      [.writeClient (str "x"), .writeClient resp502, .endClient] ∧
    Effect.writeClient resp502 ∈ runTarget [.tdata (str "x"), .terror] := by
  decide

/-- C5 (amended): a target-side error always writes the `502` status
line to the client and closes it, regardless of how many bytes have
already been tunneled. -/
theorem target_error_always_writes_502 (bufs : List (List Char)) :
    runTarget (bufs.map TargetEvent.tdata ++ [.terror]) =
      bufs.map Effect.writeClient ++ [.writeClient resp502, .endClient] := by
  induction bufs with
  | nil => rfl
  | cons b bs ih => simp [runTarget, targetHandler, ih]

/-- Once the tunnel is established every further client chunk is piped
to the target and nothing else is written. -/
theorem runConn_tunnel (rest : List (List Char × Bool)) :
    runConn ⟨true, false⟩ rest = (⟨true, false⟩, tunnelEffs rest) := by
  induction rest with
  | nil => rfl
  | cons cb rest ih =>
      rw [runConn, show dataHandler ⟨true, false⟩ cb.1 cb.2 =
        (⟨true, false⟩, [.writeTarget cb.1]) from rfl, ih]
      simp [tunnelEffs]

/-- After the client socket has been ended nothing further happens. -/
theorem runConn_closed (t : Bool) (rest : List (List Char × Bool)) :
    runConn ⟨t, true⟩ rest = (⟨t, true⟩, []) := by
  induction rest with
  | nil => rfl
  | cons cb rest ih =>
      rw [runConn, show dataHandler ⟨t, true⟩ cb.1 cb.2 = (⟨t, true⟩, []) from
        by rw [dataHandler]; simp, ih]
      simp

/-- No status line is ever written while piping tunnel payload. -/
theorem writeClient_not_mem_tunnelEffs (m : List Char)
    (rest : List (List Char × Bool)) :
    Effect.writeClient m ∉ tunnelEffs rest := by
  simp [tunnelEffs]

/-- C3: on a connection whose first chunk is a CONNECT request, the
`200 Connection Established` line is written exactly once and only
after the awaited `Bun.connect` to the target has resolved (the
`connectTo` effect precedes the write); if the connection attempt
fails, the frontend writes `502 Bad Gateway` and closes instead, and
never writes the `200` line at all. -/
theorem connect_200_once_after_resolution (chunk h p : List Char)
    (rest : List (List Char × Bool)) (ok : Bool)
    (hparse : parseConnect chunk = some (h, p)) :
    (ok = true →
      (runConn ⟨false, false⟩ ((chunk, ok) :: rest)).2 =
        .connectTo h p :: .writeClient resp200 :: tunnelEffs rest) ∧
    (ok = false →
      (runConn ⟨false, false⟩ ((chunk, ok) :: rest)).2 =
        [.connectTo h p, .writeClient resp502, .endClient]) ∧
    (runConn ⟨false, false⟩ ((chunk, ok) :: rest)).2.count
      (Effect.writeClient resp200) = (if ok then 1 else 0) := by
  cases ok with
  | true =>
      have hstep : dataHandler ⟨false, false⟩ chunk true =
          (⟨true, false⟩, [.connectTo h p, .writeClient resp200]) := by
        rw [dataHandler]
        simp [hparse]
      have hrun : runConn ⟨false, false⟩ ((chunk, true) :: rest) =
          (⟨true, false⟩,
            .connectTo h p :: .writeClient resp200 :: tunnelEffs rest) := by
        rw [runConn, hstep]
        simp [runConn_tunnel]
      rw [hrun]
      refine ⟨fun _ => rfl, ?_, ?_⟩
      · intro hc
        exact absurd hc (by decide)
      · have hz : (tunnelEffs rest).count (Effect.writeClient resp200) = 0 :=
          List.count_eq_zero.mpr (writeClient_not_mem_tunnelEffs _ _)
        simp [List.count_cons, hz]
  | false =>
      have hstep : dataHandler ⟨false, false⟩ chunk false =
          (⟨false, true⟩,
            [.connectTo h p, .writeClient resp502, .endClient]) := by
        rw [dataHandler]
        simp [hparse]
      have hrun : runConn ⟨false, false⟩ ((chunk, false) :: rest) =
          (⟨false, true⟩,
            [.connectTo h p, .writeClient resp502, .endClient]) := by
        rw [runConn, hstep]
        simp [runConn_closed]
      rw [hrun]
      refine ⟨?_, fun _ => rfl, ?_⟩
      · intro hc
        exact absurd hc (by decide)
      · have hne : Effect.writeClient resp200 ≠ Effect.writeClient resp502 := by
          decide
        simp [List.count_cons, hne]

/-- Decompose a list at the first element failing the predicate. -/
theorem exists_first_stop (p : Char → Bool) :
    ∀ l : List Char, (∃ x ∈ l, p x = false) →
      ∃ a x b, l = a ++ x :: b ∧ (∀ c ∈ a, p c = true) ∧ p x = false := by
  intro l
  induction l with
  | nil =>
      rintro ⟨x, hx, _⟩
      cases hx
  | cons c cs ih =>
      intro hex
      by_cases hc : p c = true
      · have hex2 : ∃ x ∈ cs, p x = false := by
          rcases hex with ⟨x, hx, hpx⟩
          rcases List.mem_cons.mp hx with rfl | hx
          · rw [hc] at hpx
            cases hpx
          · exact ⟨x, hx, hpx⟩
        rcases ih hex2 with ⟨a, x, b, heq, ha, hx⟩
        refine ⟨c :: a, x, b, by rw [heq]; rfl, ?_, hx⟩
        intro d hd
        rcases List.mem_cons.mp hd with rfl | hd
        · exact hc
        · exact ha d hd
      · exact ⟨[], c, cs, rfl, (by intro d hd; cases hd),
          Bool.eq_false_iff.mpr hc⟩

/-- A prefix check fails at the very first character. -/
theorem isPrefixOf_cons_ne (a b : Char) (as bs : List Char) (h : a ≠ b) :
    (a :: as).isPrefixOf (b :: bs) = false := by
  simp [List.isPrefixOf, h]

/-- Evaluation of `parseConnect` on a chunk starting with the literal `CONNECT `,
with the anchored prefix discharged and the let bindings expanded. -/
theorem parseConnect_spine (R : List Char) :
    parseConnect (str "CONNECT " ++ R) =
      (if (R.takeWhile (· ≠ ':')).length = 0 then none
       else if (R.takeWhile (· ≠ ':')).length < R.length then
         (if ((R.drop ((R.takeWhile (· ≠ ':')).length + 1)).takeWhile
              (·.isDigit)).length = 0 then none
          else if (str " HTTP/1.").isPrefixOf
              ((R.drop ((R.takeWhile (· ≠ ':')).length + 1)).drop
                ((R.drop ((R.takeWhile (· ≠ ':')).length + 1)).takeWhile
                  (·.isDigit)).length) then
            match (R.drop ((R.takeWhile (· ≠ ':')).length + 1)).drop
                (((R.drop ((R.takeWhile (· ≠ ':')).length + 1)).takeWhile
                  (·.isDigit)).length + 8) with
            | '0' :: _ => some (R.takeWhile (· ≠ ':'),
                (R.drop ((R.takeWhile (· ≠ ':')).length + 1)).takeWhile
                  (·.isDigit))
            | '1' :: _ => some (R.takeWhile (· ≠ ':'),
                (R.drop ((R.takeWhile (· ≠ ':')).length + 1)).takeWhile
                  (·.isDigit))
            | _ => none
          else none)
       else none) := by
  rw [parseConnect]
  rw [if_pos (isPrefixOf_append_self _ _)]
  have hr1 : (str "CONNECT " ++ R).drop 8 = R := by
    have h8 : (8 : Nat) = (str "CONNECT ").length := rfl
    rw [h8, List.drop_left]
  rw [hr1]

/-- The CONNECT regex rejects every request line whose host part
contains a colon or whose port part is not a non-empty run of decimal
digits (host and port are space-free, as request-line components are
delimited by spaces). -/
theorem parseConnect_malformed_none (host port tail : List Char)
    (hh : ∀ c ∈ host, c ≠ ' ') (hp : ∀ c ∈ port, c ≠ ' ')
    (hbad : ':' ∈ host ∨ port = [] ∨ ¬(∀ c ∈ port, c.isDigit = true)) :
    parseConnect (str "CONNECT " ++
      (host ++ ':' :: (port ++ (str " HTTP/1.1" ++ tail)))) = none := by
  set W := str " HTTP/1.1" ++ tail with hW
  rw [parseConnect_spine]
  by_cases hcolon : ':' ∈ host
  · obtain ⟨a, x, b, heq, ha, hx⟩ :=
      exists_first_stop (· ≠ ':') host ⟨':', hcolon, by simp⟩
    have hxc : x = ':' := by simpa using hx
    subst hxc
    subst heq
    have hR : (a ++ ':' :: b) ++ ':' :: (port ++ W) =
        a ++ ':' :: (b ++ ':' :: (port ++ W)) := by simp
    rw [hR]
    have hG : (a ++ ':' :: (b ++ ':' :: (port ++ W))).takeWhile (· ≠ ':') = a :=
      takeWhile_append_stop _ a ':' _ ha (by simp)
    rw [hG]
    by_cases hanil : a.length = 0
    · rw [if_pos hanil]
    · rw [if_neg hanil]
      have hlt : a.length < (a ++ ':' :: (b ++ ':' :: (port ++ W))).length := by
        simp
      rw [if_pos hlt]
      have hdrop : (a ++ ':' :: (b ++ ':' :: (port ++ W))).drop (a.length + 1)
          = b ++ ':' :: (port ++ W) := by
        have h1 : a ++ ':' :: (b ++ ':' :: (port ++ W)) =
            (a ++ [':']) ++ (b ++ ':' :: (port ++ W)) := by simp
        have h2 : a.length + 1 = (a ++ [':']).length := by simp
        rw [h1, h2, List.drop_left]
      rw [hdrop]
      have hbody : b ++ ':' :: (port ++ W) = (b ++ ':' :: port) ++ W := by simp
      rw [hbody]
      obtain ⟨a2, x2, b2, heq2, ha2, hx2⟩ :=
        exists_first_stop (·.isDigit) (b ++ ':' :: port)
          ⟨':', (by simp), (by decide)⟩
      rw [heq2]
      have hre : (a2 ++ x2 :: b2) ++ W = a2 ++ x2 :: (b2 ++ W) := by simp
      rw [hre]
      have hG2 : (a2 ++ x2 :: (b2 ++ W)).takeWhile (·.isDigit) = a2 :=
        takeWhile_append_stop _ a2 x2 _ ha2 hx2
      rw [hG2]
      by_cases ha2nil : a2.length = 0
      · rw [if_pos ha2nil]
      · rw [if_neg ha2nil]
        have hdrop2 : (a2 ++ x2 :: (b2 ++ W)).drop a2.length =
            x2 :: (b2 ++ W) := List.drop_left _ _
        rw [hdrop2]
        have hx2mem : x2 ∈ b ++ ':' :: port := by rw [heq2]; simp
        have hx2sp : x2 ≠ ' ' := by
          rcases List.mem_append.mp hx2mem with hmem | hmem
          · exact hh x2 (by simp [hmem])
          · rcases List.mem_cons.mp hmem with rfl | hmem
            · decide
            · exact hp x2 hmem
        have hpref : (str " HTTP/1.").isPrefixOf (x2 :: (b2 ++ W)) = false := by
          rw [show str " HTTP/1." = ' ' :: str "HTTP/1." from rfl]
          exact isPrefixOf_cons_ne _ _ _ _ (Ne.symm hx2sp)
        rw [if_neg (by simp [hpref])]
  · rcases hbad with hcol | hbad
    · exact absurd hcol hcolon
    have hhostall : ∀ c ∈ host, ((· ≠ ':') c : Bool) = true := by
      intro c hc
      simp only [decide_eq_true_eq]
      intro hceq
      exact hcolon (hceq ▸ hc)
    have hG : (host ++ ':' :: (port ++ W)).takeWhile (· ≠ ':') = host :=
      takeWhile_append_stop _ host ':' _ hhostall (by simp)
    rw [hG]
    by_cases hhnil : host.length = 0
    · rw [if_pos hhnil]
    · rw [if_neg hhnil]
      have hlt : host.length < (host ++ ':' :: (port ++ W)).length := by simp
      rw [if_pos hlt]
      have hdrop : (host ++ ':' :: (port ++ W)).drop (host.length + 1) =
          port ++ W := by
        have h1 : host ++ ':' :: (port ++ W) = (host ++ [':']) ++ (port ++ W) := by
          simp
        have h2 : host.length + 1 = (host ++ [':']).length := by simp
        rw [h1, h2, List.drop_left]
      rw [hdrop]
      rcases hbad with rfl | hnd
      · rw [List.nil_append, hW,
          show str " HTTP/1.1" ++ tail = ' ' :: (str "HTTP/1.1" ++ tail) from rfl]
        have hTW : (' ' :: (str "HTTP/1.1" ++ tail)).takeWhile (·.isDigit)
            = [] := by
          rw [List.takeWhile_cons, if_neg (by decide)]
        rw [hTW]
        rw [if_pos (show ([] : List Char).length = 0 from rfl)]
      · have hex2 : ∃ x ∈ port, ((·.isDigit) x : Bool) = false := by
          rcases not_forall.mp hnd with ⟨x, hx⟩
          rcases Classical.not_imp.mp hx with ⟨hmem, hdig⟩
          exact ⟨x, hmem, Bool.eq_false_iff.mpr hdig⟩
        obtain ⟨a2, x2, b2, heq2, ha2, hx2⟩ :=
          exists_first_stop (·.isDigit) port hex2
        rw [heq2]
        have hre : (a2 ++ x2 :: b2) ++ W = a2 ++ x2 :: (b2 ++ W) := by simp
        rw [hre]
        have hG2 : (a2 ++ x2 :: (b2 ++ W)).takeWhile (·.isDigit) = a2 :=
          takeWhile_append_stop _ a2 x2 _ ha2 hx2
        rw [hG2]
        by_cases ha2nil : a2.length = 0
        · rw [if_pos ha2nil]
        · rw [if_neg ha2nil]
          have hdrop2 : (a2 ++ x2 :: (b2 ++ W)).drop a2.length =
              x2 :: (b2 ++ W) := List.drop_left _ _
          rw [hdrop2]
          have hx2sp : x2 ≠ ' ' := hp x2 (by rw [heq2]; simp)
          have hpref : (str " HTTP/1.").isPrefixOf (x2 :: (b2 ++ W)) = false := by
            rw [show str " HTTP/1." = ' ' :: str "HTTP/1." from rfl]
            exact isPrefixOf_cons_ne _ _ _ _ (Ne.symm hx2sp)
          rw [if_neg (by simp [hpref])]

/-- Whenever the CONNECT parser accepts, the captured host is colon-free
and non-empty and the captured port is a non-empty run of decimal
digits. -/
theorem parseConnect_sound (s h p : List Char)
    (hparse : parseConnect s = some (h, p)) :
    ':' ∉ h ∧ h ≠ [] ∧ p ≠ [] ∧ ∀ c ∈ p, c.isDigit = true := by
  have hmain : ∀ h2 p2 : List Char, h2 = h → p2 = p →
      h2 = h2.takeWhile (· ≠ ':') → p2 = p2.takeWhile (·.isDigit) →
      h2.length ≠ 0 → p2.length ≠ 0 →
      ':' ∉ h ∧ h ≠ [] ∧ p ≠ [] ∧ ∀ c ∈ p, c.isDigit = true := by
    rintro h2 p2 rfl rfl hh hp hl1 hl2
    refine ⟨?_, ?_, ?_, ?_⟩
    · intro hmem
      rw [hh] at hmem
      have := List.mem_takeWhile_imp hmem
      simp at this
    · exact fun hnil => hl1 (by rw [hnil]; rfl)
    · exact fun hnil => hl2 (by rw [hnil]; rfl)
    · intro c hc
      rw [hp] at hc
      exact List.mem_takeWhile_imp hc
  by_cases h1 : (str "CONNECT ").isPrefixOf s
  · obtain ⟨rest, rfl⟩ : ∃ rest, s = str "CONNECT " ++ rest :=
      eq_append_of_isPrefixOf _ _ h1
    rw [parseConnect_spine] at hparse
    by_cases hc1 : (rest.takeWhile (· ≠ ':')).length = 0
    · rw [if_pos hc1] at hparse
      cases hparse
    · rw [if_neg hc1] at hparse
      by_cases hc2 : (rest.takeWhile (· ≠ ':')).length < rest.length
      · rw [if_pos hc2] at hparse
        by_cases hc3 : ((rest.drop ((rest.takeWhile (· ≠ ':')).length + 1)).takeWhile
            (·.isDigit)).length = 0
        · rw [if_pos hc3] at hparse
          cases hparse
        · rw [if_neg hc3] at hparse
          by_cases hc4 : (str " HTTP/1.").isPrefixOf
              ((rest.drop ((rest.takeWhile (· ≠ ':')).length + 1)).drop
                ((rest.drop ((rest.takeWhile (· ≠ ':')).length + 1)).takeWhile
                  (·.isDigit)).length) = true
          · rw [if_pos hc4] at hparse
            split at hparse
            · injection hparse with hpair
              injection hpair with hhost hport
              exact hmain _ _ hhost hport (by rw [List.takeWhile_idem])
                (by rw [List.takeWhile_idem]) hc1 hc3
            · injection hparse with hpair
              injection hpair with hhost hport
              exact hmain _ _ hhost hport (by rw [List.takeWhile_idem])
                (by rw [List.takeWhile_idem]) hc1 hc3
            · cases hparse
          · rw [if_neg hc4] at hparse
            cases hparse
      · rw [if_neg hc2] at hparse
        cases hparse
  · rw [parseConnect, if_neg h1] at hparse
    cases hparse

/-- C9: a first chunk whose request line carries a bracketed-IPv6-style
host (any host containing a colon) or a port that is not a non-empty
run of decimal digits is answered with `400 Bad Request` and the socket
is closed; and conversely every chunk the parser accepts has a
colon-free host and an all-decimal port. -/
theorem connect_rejects_colon_host_or_bad_port :
    (∀ (host port tail : List Char) (ok : Bool),
      (∀ c ∈ host, c ≠ ' ') → (∀ c ∈ port, c ≠ ' ') →
      (':' ∈ host ∨ port = [] ∨ ¬(∀ c ∈ port, c.isDigit = true)) →
      dataHandler ⟨false, false⟩
          (str "CONNECT " ++
            (host ++ ':' :: (port ++ (str " HTTP/1.1" ++ tail)))) ok =
        (⟨false, true⟩, [.writeClient resp400, .endClient])) ∧
    (∀ s h p : List Char, parseConnect s = some (h, p) →
      ':' ∉ h ∧ h ≠ [] ∧ p ≠ [] ∧ ∀ c ∈ p, c.isDigit = true) := by
  constructor
  · intro host port tail ok hh hp hbad
    rw [dataHandler]
    simp [parseConnect_malformed_none host port tail hh hp hbad]
  · exact parseConnect_sound

/-- Witness for C9: `CONNECT [::1]:443 HTTP/1.1` gets `400 Bad Request`
and a closed socket. -/
theorem connect_rejects_colon_host_or_bad_port_witness :
    ((∀ c ∈ str "[::1]", c ≠ ' ') ∧ (∀ c ∈ str "443", c ≠ ' ') ∧
      ':' ∈ str "[::1]") ∧
    dataHandler ⟨false, false⟩
        (str "CONNECT " ++ (str "[::1]" ++ ':' ::
          (str "443" ++ (str " HTTP/1.1" ++ str "\r\n\r\n")))) true =
      (⟨false, true⟩, [.writeClient resp400, .endClient]) :=
  ⟨⟨by decide, by decide, by decide⟩,
   connect_rejects_colon_host_or_bad_port.1 (str "[::1]") (str "443")
     (str "\r\n\r\n") true (by decide) (by decide) (Or.inl (by decide))⟩

/-- Witness for C3 at a concrete CONNECT chunk with a successful
connection. -/
theorem connect_200_once_after_resolution_witness :
    parseConnect (str "CONNECT example.com:443 HTTP/1.1\r\n\r\n") =
      some (str "example.com", str "443") ∧
    ((true = true →
      (runConn ⟨false, false⟩
        [((str "CONNECT example.com:443 HTTP/1.1\r\n\r\n"), true)]).2 =
        .connectTo (str "example.com") (str "443") ::
          .writeClient resp200 :: tunnelEffs []) ∧
    (true = false →
      (runConn ⟨false, false⟩
        [((str "CONNECT example.com:443 HTTP/1.1\r\n\r\n"), true)]).2 =
        [.connectTo (str "example.com") (str "443"),
         .writeClient resp502, .endClient]) ∧
    (runConn ⟨false, false⟩
        [((str "CONNECT example.com:443 HTTP/1.1\r\n\r\n"), true)]).2.count
      (Effect.writeClient resp200) = (if true then 1 else 0)) :=
  ⟨by decide,
   connect_200_once_after_resolution
     (str "CONNECT example.com:443 HTTP/1.1\r\n\r\n")
     (str "example.com") (str "443") [] true (by decide)⟩

end BunProxy
